import Mathlib

/-! # ART: dex file verifier bookkeeping and the inferred register category map

A shallow embedding of

* `runtime/dex_file_verifier.h`: the slot and hash policies of `offset_to_type_map_`,
  the constructor of `DexFileVerifier` and `FailureReason`;
* `src/compiler_llvm/inferred_reg_category_map.cc`: the constructor, `GetRegCategory`,
  `SetRegCategory`, `operator==` and `operator!=` of `InferredRegCategoryMap`.

Machine integers are natural numbers; a conversion that can lose bits is written as an
explicit remainder. A pointer is an address, `nullptr` being address 0, except for the
owning pointers stored in `lines_`, which are modelled as `Option`: `none` is `NULL`
and `some line` is the heap vector that the pointer owns.
-/

set_option autoImplicit false
set_option linter.dupNamespace false

namespace art

/-! ## Definitions: runtime/dex_file_verifier.h -/

/-- An address; pointers of the verifier are never dereferenced by the code embedded here. -/
abbrev Ptr := Nat

/-- The null pointer. -/
def nullptr : Ptr := 0

/-- A slot of the offset map, `std::pair<uint32_t, uint16_t>`: `first` is the offset
(the key), `second` the dex file type (the kind of item starting there). -/
structure OffsetTypePair where
  first : Nat
  second : Nat
deriving DecidableEq, Repr

namespace OffsetTypeMapEmptyFn

/-- Source: `void MakeEmpty(std::pair<uint32_t, uint16_t>& pair) const { pair.first = 0u; }`.
The updated slot is returned. -/
def MakeEmpty (pair : OffsetTypePair) : OffsetTypePair :=
  { pair with first := 0 }

/-- Source: `bool IsEmpty(const std::pair<uint32_t, uint16_t>& pair) const`,
which returns `pair.first == 0`. -/
def IsEmpty (pair : OffsetTypePair) : Bool :=
  pair.first == 0

end OffsetTypeMapEmptyFn

namespace OffsetTypeMapHashCompareFn

/-- Source: `size_t operator()(const uint32_t key) const { return key; }`.
The returned value is the key converted to `size_t`, an unsigned integer type of
`size_t_bits` bits (`size_t` is declared by the platform, so its width is a parameter). -/
def hash (size_t_bits : Nat) (key : Nat) : Nat :=
  key % 2 ^ size_t_bits

/-- Source: `bool operator()(const uint32_t a, const uint32_t b) const { return a == b; }`. -/
def equal (a b : Nat) : Bool :=
  a == b

end OffsetTypeMapHashCompareFn

/-- Modelled from the spec: the hash map template `AllocationTrackingHashMap` and the
bodies in dex_file_verifier.cc that insert into and query `offset_to_type_map_` are not
among the sources. The spec describes the map as a "mapping with O(1) lookup, no
observable iteration order, offset 0 reserved as not-present"; it is modelled as the
list of its slots, the most recently inserted first. -/
structure OffsetTypeMap where
  slots : List OffsetTypePair
deriving DecidableEq, Repr

namespace OffsetTypeMap

/-- Modelled from the spec: a default-constructed map holds no entry. -/
def empty : OffsetTypeMap := ⟨[]⟩

/-- Modelled from the spec: `lookup(offset) -> kind option`. A slot answers for `offset`
when the slot policy of the source does not report it empty (`IsEmpty`) and the key
equality of the source (`OffsetTypeMapHashCompareFn`) holds between its key and `offset`. -/
def lookup (m : OffsetTypeMap) (offset : Nat) : Option Nat :=
  (m.slots.find? (fun s =>
      !OffsetTypeMapEmptyFn.IsEmpty s && OffsetTypeMapHashCompareFn.equal s.first offset)).map
    (fun s => s.second)

end OffsetTypeMap

/-- The fields of `class DexFileVerifier`, in the order of their declaration. -/
structure DexFileVerifier where
  dex_file_ : Ptr
  begin_ : Ptr
  size_ : Nat
  location_ : Ptr
  header_ : Ptr
  offset_to_type_map_ : OffsetTypeMap
  ptr_ : Ptr
  previous_item_ : Ptr
  failure_reason_ : String
  defined_classes_ : List Nat
deriving DecidableEq, Repr

/-- Source: the constructor
`DexFileVerifier(const DexFile* dex_file, const uint8_t* begin, size_t size, const char* location)`
with its initialiser list; the members it does not name (`offset_to_type_map_`,
`failure_reason_`, `defined_classes_`) are default-constructed. `GetHeader` stands for
`&dex_file->GetHeader()` of dex_file.h, which is not among the sources: it gives the
address of the header of the dex file at the given address. -/
def DexFileVerifier.DexFileVerifier (GetHeader : Ptr → Ptr) (dex_file begin : Ptr)
    (size : Nat) (location : Ptr) : art.DexFileVerifier :=
  { dex_file_ := dex_file
    begin_ := begin
    size_ := size
    location_ := location
    header_ := GetHeader dex_file
    offset_to_type_map_ := OffsetTypeMap.empty
    ptr_ := nullptr
    previous_item_ := nullptr
    failure_reason_ := ""
    defined_classes_ := [] }

/-- Source: `const std::string& FailureReason() const { return failure_reason_; }`. -/
def DexFileVerifier.FailureReason (v : art.DexFileVerifier) : String :=
  v.failure_reason_

namespace compiler_llvm

/-! ## Definitions: src/compiler_llvm/inferred_reg_category_map.cc -/

/-- An enumerator of `enum RegCategory`, given by its integer value. The enumeration is
declared in backend_types.h, which is not among the sources, so the value of its
enumerator `kRegUnknown` is a parameter of the functions that use it. -/
abbrev RegCategory := Nat

/-- Modelled from the spec: `RegCategoryLine` is declared in inferred_reg_category_map.h,
which is not among the sources; a category is "stored as a byte in the line", so a line is
a vector of bytes, here the list of their values. -/
abbrev RegCategoryLine := List Nat

/-- The implicit conversion of a category to the byte stored in a line. -/
def toByte (cat : RegCategory) : Nat :=
  cat % 256

/-- How a call ends: it returns, or a `CHECK` fails and the process aborts, or a vector
is indexed outside its bounds (`std::vector::operator[]` does not check, and the
behaviour is undefined). -/
inductive Outcome (α : Type) where
  | ok (a : α)
  | checkFailed
  | outOfRange
deriving DecidableEq, Repr

/-- The fields of `class InferredRegCategoryMap`: `lines_` is a
`std::vector<RegCategoryLine*>`, each entry `NULL` (`none`) or owning a line. -/
structure InferredRegCategoryMap where
  registers_size_ : Nat
  lines_ : List (Option RegCategoryLine)
deriving DecidableEq, Repr

/-- Source: `InferredRegCategoryMap(uint32_t insns_size, uint8_t regs_size)` with the
initialiser list `registers_size_(regs_size), lines_(insns_size, NULL)`. -/
def InferredRegCategoryMap.InferredRegCategoryMap (insns_size regs_size : Nat) :
    compiler_llvm.InferredRegCategoryMap :=
  { registers_size_ := regs_size
    lines_ := List.replicate insns_size none }

/-- Source: `RegCategory GetRegCategory(uint32_t dex_pc, uint16_t reg_idx) const`:
`CHECK_NE(lines_[dex_pc], NULL)` and then `(*lines_[dex_pc])[reg_idx]` cast to
`RegCategory`. -/
def InferredRegCategoryMap.GetRegCategory (m : compiler_llvm.InferredRegCategoryMap)
    (dex_pc reg_idx : Nat) : Outcome RegCategory :=
  match m.lines_[dex_pc]? with
  | none => .outOfRange
  | some none => .checkFailed
  | some (some l) =>
    match l[reg_idx]? with
    | none => .outOfRange
    | some byte => .ok byte

/-- Source: `void SetRegCategory(uint32_t dex_pc, uint16_t reg_idx, RegCategory cat)`:
a `NULL` line is first replaced by `new RegCategoryLine(registers_size_, kRegUnknown)`,
then `(*lines_[dex_pc])[reg_idx] = cat`. The updated map is returned. -/
def InferredRegCategoryMap.SetRegCategory (kRegUnknown : RegCategory)
    (m : compiler_llvm.InferredRegCategoryMap) (dex_pc reg_idx : Nat) (cat : RegCategory) :
    Outcome compiler_llvm.InferredRegCategoryMap :=
  match m.lines_[dex_pc]? with
  | none => .outOfRange
  | some slot =>
    let l : RegCategoryLine :=
      match slot with
      | none => List.replicate m.registers_size_ (toByte kRegUnknown)
      | some l0 => l0
    if reg_idx < l.length then
      .ok { m with lines_ := m.lines_.set dex_pc (some (l.set reg_idx (toByte cat))) }
    else
      .outOfRange

/-- The loop of `operator==`, `for (size_t i = 0; i < lines_.size(); ++i)`, with
`remaining` iterations left at index `i`. It runs only when both vectors have the same
size, so neither index is outside its vector; the last case is never reached then. -/
def InferredRegCategoryMap.operator_eq_loop (lhs rhs : List (Option RegCategoryLine)) :
    (remaining : Nat) → (i : Nat) → Bool
  | 0, _ => true
  | remaining + 1, i =>
    match lhs[i]?, rhs[i]? with
    | some none, some none => operator_eq_loop lhs rhs remaining (i + 1)
    | some none, some (some _) => false
    | some (some _), some none => false
    | some (some a), some (some b) =>
      if a ≠ b then false else operator_eq_loop lhs rhs remaining (i + 1)
    | _, _ => false

/-- Source: `bool operator==(InferredRegCategoryMap const& rhs) const`. -/
def InferredRegCategoryMap.operator_eq (m rhs : compiler_llvm.InferredRegCategoryMap) : Bool :=
  if m.registers_size_ ≠ rhs.registers_size_ then false
  else if m.lines_.length ≠ rhs.lines_.length then false
  else InferredRegCategoryMap.operator_eq_loop m.lines_ rhs.lines_ m.lines_.length 0

/-- Source: `bool operator!=(InferredRegCategoryMap const& rhs) const`, which returns
`!(*this == rhs)`. -/
def InferredRegCategoryMap.operator_ne (m rhs : compiler_llvm.InferredRegCategoryMap) : Bool :=
  !(m.operator_eq rhs)

/-- The arguments of one call of `SetRegCategory`. -/
structure SetCall where
  dex_pc : Nat
  reg_idx : Nat
  cat : RegCategory
deriving DecidableEq, Repr

/-- A sequence of `SetRegCategory` calls, run in order from `m`. -/
def applyCalls (kRegUnknown : RegCategory) (m : InferredRegCategoryMap) :
    List SetCall → Outcome InferredRegCategoryMap
  | [] => .ok m
  | c :: cs =>
    match m.SetRegCategory kRegUnknown c.dex_pc c.reg_idx c.cat with
    | .ok m1 => applyCalls kRegUnknown m1 cs
    | .checkFailed => .checkFailed
    | .outOfRange => .outOfRange

/-- Every call of the sequence has `dex_pc < insns_size` and `reg_idx < regs_size`. -/
def InRange (insns_size regs_size : Nat) (calls : List SetCall) : Prop :=
  ∀ c ∈ calls, c.dex_pc < insns_size ∧ c.reg_idx < regs_size

instance (insns_size regs_size : Nat) (calls : List SetCall) :
    Decidable (InRange insns_size regs_size calls) := by
  unfold InRange; infer_instance

/-- The maps built by the constructor with `(insns_size, regs_size)` followed by a
sequence of in-range `SetRegCategory` calls. -/
def Reachable (kRegUnknown : RegCategory) (insns_size regs_size : Nat)
    (m : InferredRegCategoryMap) : Prop :=
  ∃ calls, InRange insns_size regs_size calls ∧
    applyCalls kRegUnknown
      (InferredRegCategoryMap.InferredRegCategoryMap insns_size regs_size) calls = .ok m

/-- The shape of a reachable map: `registers_size_` and the number of lines are those
given to the constructor and every allocated line has `regs_size` entries. -/
def WellShaped (insns_size regs_size : Nat) (m : InferredRegCategoryMap) : Prop :=
  m.registers_size_ = regs_size ∧ m.lines_.length = insns_size ∧
    ∀ (i : Nat) (l : RegCategoryLine), m.lines_[i]? = some (some l) → l.length = regs_size

/-- The reference definition of equality, following the words of the specification:
equal `registers_size_`, the same number of lines, and at every index either both lines
unallocated or both allocated and holding the same sequence of categories. -/
def StructurallyEqual (a b : InferredRegCategoryMap) : Prop :=
  a.registers_size_ = b.registers_size_ ∧ a.lines_.length = b.lines_.length ∧
    ∀ i, i < a.lines_.length →
      (a.lines_[i]? = some none ∧ b.lines_[i]? = some none) ∨
      (∃ la lb, a.lines_[i]? = some (some la) ∧ b.lines_[i]? = some (some lb) ∧ la = lb)

end compiler_llvm

end art

/-! ## Theorems: runtime/dex_file_verifier.h -/

namespace art

/-- C1: a slot of the offset map is reported empty exactly when its offset is 0, whatever
its kind, so a slot with a non-zero offset is never reported empty; `MakeEmpty` sets the
offset to 0, keeps the kind, and the slot it returns is reported empty. -/
theorem OffsetTypeMapEmptyFn.empty_slot_sentinel (offset kind : Nat) :
    (OffsetTypeMapEmptyFn.IsEmpty ⟨offset, kind⟩ = true ↔ offset = 0) ∧
    (OffsetTypeMapEmptyFn.IsEmpty ⟨offset, kind⟩ = false ↔ offset ≠ 0) ∧
    (OffsetTypeMapEmptyFn.MakeEmpty ⟨offset, kind⟩).first = 0 ∧
    (OffsetTypeMapEmptyFn.MakeEmpty ⟨offset, kind⟩).second = kind ∧
    OffsetTypeMapEmptyFn.IsEmpty (OffsetTypeMapEmptyFn.MakeEmpty ⟨offset, kind⟩) = true := by
  simp [OffsetTypeMapEmptyFn.IsEmpty, OffsetTypeMapEmptyFn.MakeEmpty]

/-- C5: the state built by the constructor has `begin_`, `size_` and `location_` equal to
the arguments, null `ptr_` and `previous_item_`, an empty offset map (no offset is found in
it), no defined class and an empty failure reason, which `FailureReason` returns; and these
fields are the same whatever dex file the verifier is constructed for. -/
theorem DexFileVerifier.fresh_state (GetHeader GetHeader2 : Ptr → Ptr)
    (dex_file dex_file2 begin : Ptr) (size : Nat) (location : Ptr) :
    (DexFileVerifier.DexFileVerifier GetHeader dex_file begin size location).begin_ = begin ∧
    (DexFileVerifier.DexFileVerifier GetHeader dex_file begin size location).size_ = size ∧
    (DexFileVerifier.DexFileVerifier GetHeader dex_file begin size location).location_
      = location ∧
    (DexFileVerifier.DexFileVerifier GetHeader dex_file begin size location).ptr_ = nullptr ∧
    (DexFileVerifier.DexFileVerifier GetHeader dex_file begin size location).previous_item_
      = nullptr ∧
    (DexFileVerifier.DexFileVerifier GetHeader dex_file begin size location).offset_to_type_map_
      = OffsetTypeMap.empty ∧
    (∀ offset,
      (DexFileVerifier.DexFileVerifier GetHeader dex_file begin size
        location).offset_to_type_map_.lookup offset = none) ∧
    (DexFileVerifier.DexFileVerifier GetHeader dex_file begin size location).defined_classes_
      = [] ∧
    (DexFileVerifier.DexFileVerifier GetHeader dex_file begin size location).failure_reason_
      = "" ∧
    (DexFileVerifier.DexFileVerifier GetHeader dex_file begin size location).FailureReason
      = "" ∧
    { DexFileVerifier.DexFileVerifier GetHeader2 dex_file2 begin size location with
        dex_file_ := dex_file, header_ := GetHeader dex_file }
      = DexFileVerifier.DexFileVerifier GetHeader dex_file begin size location := by
  simp [DexFileVerifier.DexFileVerifier, DexFileVerifier.FailureReason, OffsetTypeMap.lookup,
    OffsetTypeMap.empty]

/-- C6: for a 32-bit key and a `size_t` of at least 32 bits the hash of a key is the key
itself, so two 32-bit keys with equal hashes are equal; the equality operator returns true
exactly for equal keys; and keys that it treats as equal have equal hashes. -/
theorem OffsetTypeMapHashCompareFn.hash_identity (size_t_bits : Nat) (hbits : 32 ≤ size_t_bits)
    (k a b : Nat) (hk : k < 2 ^ 32) (ha : a < 2 ^ 32) (hb : b < 2 ^ 32) :
    OffsetTypeMapHashCompareFn.hash size_t_bits k = k ∧
    (OffsetTypeMapHashCompareFn.hash size_t_bits a = OffsetTypeMapHashCompareFn.hash size_t_bits b
      → a = b) ∧
    (OffsetTypeMapHashCompareFn.equal a b = true ↔ a = b) ∧
    (OffsetTypeMapHashCompareFn.equal a b = true →
      OffsetTypeMapHashCompareFn.hash size_t_bits a
        = OffsetTypeMapHashCompareFn.hash size_t_bits b) := by
  have hpow : (2 : Nat) ^ 32 ≤ 2 ^ size_t_bits := Nat.pow_le_pow_right (by decide) hbits
  have hid : ∀ x, x < 2 ^ 32 → OffsetTypeMapHashCompareFn.hash size_t_bits x = x := by
    intro x hx
    exact Nat.mod_eq_of_lt (Nat.lt_of_lt_of_le hx hpow)
  refine ⟨hid k hk, ?_, ?_, ?_⟩
  · intro h
    rw [hid a ha, hid b hb] at h
    exact h
  · simp [OffsetTypeMapHashCompareFn.equal]
  · intro h
    have hab : a = b := by simpa [OffsetTypeMapHashCompareFn.equal] using h
    rw [hab]

/-- Witness of C6: a 64-bit `size_t` and the keys 0x70, 0x1234 and 0x1234. -/
theorem OffsetTypeMapHashCompareFn.hash_identity_witness :
    32 ≤ 64 ∧ 0x70 < 2 ^ 32 ∧ 0x1234 < 2 ^ 32 ∧
    (OffsetTypeMapHashCompareFn.hash 64 0x70 = 0x70 ∧
      (OffsetTypeMapHashCompareFn.hash 64 0x1234 = OffsetTypeMapHashCompareFn.hash 64 0x1234
        → 0x1234 = 0x1234) ∧
      (OffsetTypeMapHashCompareFn.equal 0x1234 0x1234 = true ↔ 0x1234 = 0x1234) ∧
      (OffsetTypeMapHashCompareFn.equal 0x1234 0x1234 = true →
        OffsetTypeMapHashCompareFn.hash 64 0x1234 = OffsetTypeMapHashCompareFn.hash 64 0x1234)) :=
  ⟨by decide, by decide, by decide,
    OffsetTypeMapHashCompareFn.hash_identity 64 (by decide) 0x70 0x1234 0x1234
      (by decide) (by decide) (by decide)⟩

end art

/-! ## Theorems: src/compiler_llvm/inferred_reg_category_map.cc -/

namespace art.compiler_llvm

/-- When `SetRegCategory` returns, and what it returns: the line written to is the
allocated line, or the newly allocated one filled with `kRegUnknown`. -/
theorem SetRegCategory_eq_ok (kRegUnknown : RegCategory) (m m1 : InferredRegCategoryMap)
    (dex_pc reg_idx : Nat) (cat : RegCategory) :
    m.SetRegCategory kRegUnknown dex_pc reg_idx cat = .ok m1 ↔
      ∃ slot, m.lines_[dex_pc]? = some slot ∧
        reg_idx < (slot.getD (List.replicate m.registers_size_ (toByte kRegUnknown))).length ∧
        m1 = ⟨m.registers_size_, m.lines_.set dex_pc (some
          ((slot.getD (List.replicate m.registers_size_ (toByte kRegUnknown))).set
            reg_idx (toByte cat)))⟩ := by
  unfold InferredRegCategoryMap.SetRegCategory
  cases h : m.lines_[dex_pc]? with
  | none => simp
  | some slot =>
    cases slot with
    | none =>
      by_cases hr : reg_idx < m.registers_size_
      · simp [hr, eq_comm]
      · simp [hr]
    | some l =>
      by_cases hr : reg_idx < l.length
      · simp [hr, eq_comm]
      · simp [hr]

theorem GetRegCategory_eq_ok (m : InferredRegCategoryMap) (dex_pc reg_idx : Nat)
    (v : RegCategory) :
    m.GetRegCategory dex_pc reg_idx = .ok v ↔
      ∃ l, m.lines_[dex_pc]? = some (some l) ∧ l[reg_idx]? = some v := by
  unfold InferredRegCategoryMap.GetRegCategory
  cases h : m.lines_[dex_pc]? with
  | none => simp
  | some slot =>
    cases slot with
    | none => simp
    | some l =>
      cases h2 : l[reg_idx]? with
      | none => simp [h2]
      | some b => simp [h2]

theorem GetRegCategory_eq_checkFailed (m : InferredRegCategoryMap) (dex_pc reg_idx : Nat) :
    m.GetRegCategory dex_pc reg_idx = .checkFailed ↔ m.lines_[dex_pc]? = some none := by
  unfold InferredRegCategoryMap.GetRegCategory
  cases h : m.lines_[dex_pc]? with
  | none => simp
  | some slot =>
    cases slot with
    | none => simp
    | some l =>
      cases h2 : l[reg_idx]? with
      | none => simp [h2]
      | some b => simp [h2]

theorem wellShaped_constructor (insns_size regs_size : Nat) :
    WellShaped insns_size regs_size
      (InferredRegCategoryMap.InferredRegCategoryMap insns_size regs_size) := by
  refine ⟨rfl, by simp [InferredRegCategoryMap.InferredRegCategoryMap], ?_⟩
  intro i l h
  simp [InferredRegCategoryMap.InferredRegCategoryMap, List.getElem?_replicate] at h

theorem wellShaped_slot_length (kRegUnknown : RegCategory) (insns_size regs_size : Nat)
    (m : InferredRegCategoryMap) (hm : WellShaped insns_size regs_size m) (dex_pc : Nat)
    (slot : Option RegCategoryLine) (hs : m.lines_[dex_pc]? = some slot) :
    (slot.getD (List.replicate m.registers_size_ (toByte kRegUnknown))).length = regs_size := by
  cases slot with
  | none => simp [hm.1]
  | some l => simpa using hm.2.2 dex_pc l hs

/-- An in-range call on a well-shaped map returns. -/
theorem SetRegCategory_returns (kRegUnknown : RegCategory) (insns_size regs_size : Nat)
    (m : InferredRegCategoryMap) (hm : WellShaped insns_size regs_size m)
    (dex_pc reg_idx : Nat) (cat : RegCategory) (hpc : dex_pc < insns_size)
    (hreg : reg_idx < regs_size) :
    ∃ m1, m.SetRegCategory kRegUnknown dex_pc reg_idx cat = .ok m1 := by
  have hlt : dex_pc < m.lines_.length := by rw [hm.2.1]; exact hpc
  refine ⟨_, (SetRegCategory_eq_ok kRegUnknown m _ dex_pc reg_idx cat).2
    ⟨m.lines_[dex_pc], List.getElem?_eq_getElem hlt, ?_, rfl⟩⟩
  rw [wellShaped_slot_length kRegUnknown insns_size regs_size m hm dex_pc _
    (List.getElem?_eq_getElem hlt)]
  exact hreg

theorem SetRegCategory_wellShaped (kRegUnknown : RegCategory) (insns_size regs_size : Nat)
    (m m1 : InferredRegCategoryMap) (hm : WellShaped insns_size regs_size m)
    (dex_pc reg_idx : Nat) (cat : RegCategory)
    (h : m.SetRegCategory kRegUnknown dex_pc reg_idx cat = .ok m1) :
    WellShaped insns_size regs_size m1 := by
  obtain ⟨slot, hs, _, rfl⟩ := (SetRegCategory_eq_ok kRegUnknown m m1 dex_pc reg_idx cat).1 h
  refine ⟨hm.1, by simpa using hm.2.1, ?_⟩
  intro i l hi
  simp only [List.getElem?_set] at hi
  split at hi
  · split at hi
    · simp only [Option.some.injEq] at hi
      subst hi
      simpa using wellShaped_slot_length kRegUnknown insns_size regs_size m hm dex_pc slot hs
    · cases hi
  · exact hm.2.2 i l hi

theorem applyCalls_wellShaped (kRegUnknown : RegCategory) (insns_size regs_size : Nat)
    (calls : List SetCall) (m0 m : InferredRegCategoryMap)
    (h0 : WellShaped insns_size regs_size m0)
    (h : applyCalls kRegUnknown m0 calls = .ok m) : WellShaped insns_size regs_size m := by
  induction calls generalizing m0 with
  | nil =>
    simp only [applyCalls, Outcome.ok.injEq] at h
    subst h
    exact h0
  | cons c cs ih =>
    simp only [applyCalls] at h
    split at h
    · rename_i m1 h1
      exact ih m1 (SetRegCategory_wellShaped kRegUnknown insns_size regs_size m0 m1 h0
        c.dex_pc c.reg_idx c.cat h1) h
    · cases h
    · cases h

/-- A sequence of in-range calls on a well-shaped map runs to its end. -/
theorem applyCalls_returns (kRegUnknown : RegCategory) (insns_size regs_size : Nat)
    (calls : List SetCall) (m0 : InferredRegCategoryMap)
    (h0 : WellShaped insns_size regs_size m0) (hr : InRange insns_size regs_size calls) :
    ∃ m, applyCalls kRegUnknown m0 calls = .ok m := by
  induction calls generalizing m0 with
  | nil => exact ⟨m0, rfl⟩
  | cons c cs ih =>
    have hc := hr c (List.mem_cons_self c cs)
    obtain ⟨m1, h1⟩ := SetRegCategory_returns kRegUnknown insns_size regs_size m0 h0
      c.dex_pc c.reg_idx c.cat hc.1 hc.2
    obtain ⟨m, hm⟩ := ih m1
      (SetRegCategory_wellShaped kRegUnknown insns_size regs_size m0 m1 h0
        c.dex_pc c.reg_idx c.cat h1)
      (fun d hd => hr d (List.mem_cons_of_mem c hd))
    exact ⟨m, by simp only [applyCalls, h1]; exact hm⟩

theorem reachable_wellShaped (kRegUnknown : RegCategory) (insns_size regs_size : Nat)
    (m : InferredRegCategoryMap) (h : Reachable kRegUnknown insns_size regs_size m) :
    WellShaped insns_size regs_size m := by
  obtain ⟨calls, _, hc⟩ := h
  exact applyCalls_wellShaped kRegUnknown insns_size regs_size calls _ m
    (wellShaped_constructor insns_size regs_size) hc

/-- A line is unallocated after a call exactly when it was unallocated before and is not
the line of the call. -/
theorem SetRegCategory_unallocated (kRegUnknown : RegCategory) (m m1 : InferredRegCategoryMap)
    (dex_pc reg_idx : Nat) (cat : RegCategory)
    (h : m.SetRegCategory kRegUnknown dex_pc reg_idx cat = .ok m1) (j : Nat) :
    m1.lines_[j]? = some none ↔ (m.lines_[j]? = some none ∧ dex_pc ≠ j) := by
  obtain ⟨slot, hs, _, rfl⟩ := (SetRegCategory_eq_ok kRegUnknown m m1 dex_pc reg_idx cat).1 h
  simp only [List.getElem?_set]
  by_cases hj : dex_pc = j
  · subst hj
    by_cases hlt : dex_pc < m.lines_.length <;> simp [hlt]
  · simp [hj]

theorem applyCalls_unallocated (kRegUnknown : RegCategory) (calls : List SetCall)
    (m0 m : InferredRegCategoryMap) (h : applyCalls kRegUnknown m0 calls = .ok m) (j : Nat) :
    m.lines_[j]? = some none ↔ (m0.lines_[j]? = some none ∧ ∀ c ∈ calls, c.dex_pc ≠ j) := by
  induction calls generalizing m0 with
  | nil =>
    simp only [applyCalls, Outcome.ok.injEq] at h
    subst h
    simp
  | cons c cs ih =>
    simp only [applyCalls] at h
    split at h
    · rename_i m1 h1
      rw [ih m1 h, SetRegCategory_unallocated kRegUnknown m0 m1 c.dex_pc c.reg_idx c.cat h1 j]
      simp only [List.mem_cons, forall_eq_or_imp]
      tauto
    · cases h
    · cases h

/-- Reading a register of a well-shaped map: the call returns for an allocated line and an
in-range register. -/
theorem GetRegCategory_returns_iff (insns_size regs_size : Nat) (m : InferredRegCategoryMap)
    (hm : WellShaped insns_size regs_size m) (dex_pc reg_idx : Nat)
    (hpc : dex_pc < insns_size) (hreg : reg_idx < regs_size) :
    (∃ v, m.GetRegCategory dex_pc reg_idx = .ok v) ↔ m.lines_[dex_pc]? ≠ some none := by
  have hlt : dex_pc < m.lines_.length := by rw [hm.2.1]; exact hpc
  constructor
  · rintro ⟨v, hv⟩ hnone
    obtain ⟨l, hl, _⟩ := (GetRegCategory_eq_ok m dex_pc reg_idx v).1 hv
    rw [hnone] at hl
    cases hl
  · intro hne
    have hsome := List.getElem?_eq_getElem hlt
    cases hslot : m.lines_[dex_pc] with
    | none =>
      rw [hslot] at hsome
      exact absurd hsome hne
    | some l =>
      rw [hslot] at hsome
      have hlen : reg_idx < l.length := by rw [hm.2.2 dex_pc l hsome]; exact hreg
      exact ⟨l[reg_idx], (GetRegCategory_eq_ok m dex_pc reg_idx _).2
        ⟨l, hsome, List.getElem?_eq_getElem hlen⟩⟩

/-- Reading back the register just written gives the byte stored. -/
theorem GetRegCategory_SetRegCategory (kRegUnknown : RegCategory)
    (m m1 : InferredRegCategoryMap) (dex_pc reg_idx : Nat) (cat : RegCategory)
    (h : m.SetRegCategory kRegUnknown dex_pc reg_idx cat = .ok m1) :
    m1.GetRegCategory dex_pc reg_idx = .ok (toByte cat) := by
  obtain ⟨slot, hs, hlt, rfl⟩ := (SetRegCategory_eq_ok kRegUnknown m m1 dex_pc reg_idx cat).1 h
  have hpc : dex_pc < m.lines_.length := by
    by_contra hge
    rw [List.getElem?_eq_none (Nat.le_of_not_lt hge)] at hs
    cases hs
  refine (GetRegCategory_eq_ok _ dex_pc reg_idx _).2 ⟨_, List.getElem?_set_self hpc, ?_⟩
  exact List.getElem?_set_self hlt

/-- The lines after a call: every line but `dex_pc` is as before, and line `dex_pc` is the
line written to (allocated before, or newly allocated) with entry `reg_idx` replaced. -/
theorem SetRegCategory_lines (kRegUnknown : RegCategory) (m m1 : InferredRegCategoryMap)
    (dex_pc reg_idx : Nat) (cat : RegCategory)
    (h : m.SetRegCategory kRegUnknown dex_pc reg_idx cat = .ok m1) :
    m1.registers_size_ = m.registers_size_ ∧ m1.lines_.length = m.lines_.length ∧
    (∀ j, j ≠ dex_pc → m1.lines_[j]? = m.lines_[j]?) ∧
    ∃ slot, m.lines_[dex_pc]? = some slot ∧
      reg_idx < (slot.getD (List.replicate m.registers_size_ (toByte kRegUnknown))).length ∧
      m1.lines_[dex_pc]? = some (some
        ((slot.getD (List.replicate m.registers_size_ (toByte kRegUnknown))).set
          reg_idx (toByte cat))) := by
  obtain ⟨slot, hs, hlt, rfl⟩ := (SetRegCategory_eq_ok kRegUnknown m m1 dex_pc reg_idx cat).1 h
  have hpc : dex_pc < m.lines_.length := by
    by_contra hge
    rw [List.getElem?_eq_none (Nat.le_of_not_lt hge)] at hs
    cases hs
  refine ⟨rfl, by simp, ?_, slot, hs, hlt, List.getElem?_set_self hpc⟩
  intro j hj
  exact List.getElem?_set_ne (Ne.symm hj)

theorem toByte_of_lt (cat : RegCategory) (h : cat < 256) : toByte cat = cat :=
  Nat.mod_eq_of_lt h

/-- C3: in a map built by the constructor and in-range `SetRegCategory` calls, for an
in-range `dex_pc` and `reg_idx` and a category whose value fits in a byte,
`SetRegCategory` returns and `GetRegCategory` on the map it leaves passes its `CHECK` and
returns the category that was set. -/
theorem set_get_round_trip (kRegUnknown : RegCategory) (insns_size regs_size : Nat)
    (m : InferredRegCategoryMap) (hm : Reachable kRegUnknown insns_size regs_size m)
    (dex_pc reg_idx : Nat) (cat : RegCategory) (hpc : dex_pc < insns_size)
    (hreg : reg_idx < regs_size) (hcat : cat < 256) :
    ∃ m1, m.SetRegCategory kRegUnknown dex_pc reg_idx cat = .ok m1 ∧
      m1.GetRegCategory dex_pc reg_idx = .ok cat := by
  obtain ⟨m1, h1⟩ := SetRegCategory_returns kRegUnknown insns_size regs_size m
    (reachable_wellShaped kRegUnknown insns_size regs_size m hm) dex_pc reg_idx cat hpc hreg
  refine ⟨m1, h1, ?_⟩
  rw [GetRegCategory_SetRegCategory kRegUnknown m m1 dex_pc reg_idx cat h1,
    toByte_of_lt cat hcat]

/-- Witness of C3: three instructions, two registers, one earlier call, then category 2 is
set for register 1 at instruction 1. -/
theorem set_get_round_trip_witness :
    Reachable 0 3 2 ⟨2, [none, some [4, 0], none]⟩ ∧ 1 < 3 ∧ 1 < 2 ∧ 2 < 256 ∧
    ∃ m1, InferredRegCategoryMap.SetRegCategory 0 ⟨2, [none, some [4, 0], none]⟩ 1 1 2
        = .ok m1 ∧
      m1.GetRegCategory 1 1 = .ok 2 :=
  ⟨⟨[⟨1, 0, 4⟩], by decide, by decide⟩, by decide, by decide, by decide,
    set_get_round_trip 0 3 2 ⟨2, [none, some [4, 0], none]⟩
      ⟨[⟨1, 0, 4⟩], by decide, by decide⟩ 1 1 2 (by decide) (by decide) (by decide)⟩

/-- C4: a fresh map has `insns_size` lines, all unallocated, and `GetRegCategory` fails its
`CHECK_NE` at every `dex_pc < insns_size`; a sequence of in-range `SetRegCategory` calls
runs to its end, and on the map it leaves, for `dex_pc < insns_size`, `GetRegCategory`
passes its `CHECK_NE` exactly when some call of the sequence used that `dex_pc`, and for
`reg_idx < regs_size` it returns a value exactly in that case. -/
theorem get_passes_check_iff_set (kRegUnknown : RegCategory) (insns_size regs_size : Nat)
    (calls : List SetCall) (hr : InRange insns_size regs_size calls) :
    (InferredRegCategoryMap.InferredRegCategoryMap insns_size regs_size).lines_.length
      = insns_size ∧
    (∀ dex_pc, dex_pc < insns_size →
      (InferredRegCategoryMap.InferredRegCategoryMap insns_size regs_size).lines_[dex_pc]?
        = some none) ∧
    (∀ dex_pc reg_idx, dex_pc < insns_size →
      (InferredRegCategoryMap.InferredRegCategoryMap insns_size regs_size).GetRegCategory
        dex_pc reg_idx = .checkFailed) ∧
    ∃ m, applyCalls kRegUnknown
        (InferredRegCategoryMap.InferredRegCategoryMap insns_size regs_size) calls = .ok m ∧
      ∀ dex_pc reg_idx, dex_pc < insns_size →
        (m.GetRegCategory dex_pc reg_idx ≠ .checkFailed ↔ ∃ c ∈ calls, c.dex_pc = dex_pc) ∧
        (reg_idx < regs_size →
          ((∃ v, m.GetRegCategory dex_pc reg_idx = .ok v) ↔ ∃ c ∈ calls, c.dex_pc = dex_pc)) := by
  have hfresh : ∀ dex_pc, dex_pc < insns_size →
      (InferredRegCategoryMap.InferredRegCategoryMap insns_size regs_size).lines_[dex_pc]?
        = some none := by
    intro dex_pc hpc
    simp [InferredRegCategoryMap.InferredRegCategoryMap, List.getElem?_replicate, hpc]
  obtain ⟨m, hm⟩ := applyCalls_returns kRegUnknown insns_size regs_size calls _
    (wellShaped_constructor insns_size regs_size) hr
  have hshape := applyCalls_wellShaped kRegUnknown insns_size regs_size calls _ m
    (wellShaped_constructor insns_size regs_size) hm
  have halloc : ∀ dex_pc, dex_pc < insns_size →
      (m.lines_[dex_pc]? ≠ some none ↔ ∃ c ∈ calls, c.dex_pc = dex_pc) := by
    intro dex_pc hpc
    rw [Ne, applyCalls_unallocated kRegUnknown calls _ m hm dex_pc]
    simp only [hfresh dex_pc hpc, true_and, not_forall, Classical.not_not, exists_prop]
  refine ⟨by simp [InferredRegCategoryMap.InferredRegCategoryMap], hfresh, ?_, m, hm, ?_⟩
  · intro dex_pc reg_idx hpc
    exact (GetRegCategory_eq_checkFailed _ dex_pc reg_idx).2 (hfresh dex_pc hpc)
  · intro dex_pc reg_idx hpc
    refine ⟨?_, fun hreg => ?_⟩
    · rw [Ne, GetRegCategory_eq_checkFailed m dex_pc reg_idx]
      exact halloc dex_pc hpc
    · rw [GetRegCategory_returns_iff insns_size regs_size m hshape dex_pc reg_idx hpc hreg]
      exact halloc dex_pc hpc

/-- Witness of C4: three instructions, two registers and one call at instruction 1. -/
theorem get_passes_check_iff_set_witness :
    InRange 3 2 [⟨1, 0, 4⟩] ∧
    ((InferredRegCategoryMap.InferredRegCategoryMap 3 2).lines_.length = 3 ∧
    (∀ dex_pc, dex_pc < 3 →
      (InferredRegCategoryMap.InferredRegCategoryMap 3 2).lines_[dex_pc]? = some none) ∧
    (∀ dex_pc reg_idx, dex_pc < 3 →
      (InferredRegCategoryMap.InferredRegCategoryMap 3 2).GetRegCategory dex_pc reg_idx
        = .checkFailed) ∧
    ∃ m, applyCalls 0 (InferredRegCategoryMap.InferredRegCategoryMap 3 2) [⟨1, 0, 4⟩]
        = .ok m ∧
      ∀ dex_pc reg_idx, dex_pc < 3 →
        (m.GetRegCategory dex_pc reg_idx ≠ .checkFailed ↔
          ∃ c ∈ [(⟨1, 0, 4⟩ : SetCall)], c.dex_pc = dex_pc) ∧
        (reg_idx < 2 →
          ((∃ v, m.GetRegCategory dex_pc reg_idx = .ok v) ↔
            ∃ c ∈ [(⟨1, 0, 4⟩ : SetCall)], c.dex_pc = dex_pc))) :=
  ⟨by decide, get_passes_check_iff_set 0 3 2 [⟨1, 0, 4⟩] (by decide)⟩

/-- C9: on a reachable map an in-range `SetRegCategory` returns, leaves `registers_size_`
and the number of lines unchanged, leaves every line other than `dex_pc` as it was
(allocated with the same contents, or unallocated), and when line `dex_pc` was already
allocated it keeps the length of that line and every register other than `reg_idx`. -/
theorem SetRegCategory_frame (kRegUnknown : RegCategory) (insns_size regs_size : Nat)
    (m : InferredRegCategoryMap) (hm : Reachable kRegUnknown insns_size regs_size m)
    (dex_pc reg_idx : Nat) (cat : RegCategory) (hpc : dex_pc < insns_size)
    (hreg : reg_idx < regs_size) :
    ∃ m1, m.SetRegCategory kRegUnknown dex_pc reg_idx cat = .ok m1 ∧
      m1.registers_size_ = m.registers_size_ ∧
      m1.lines_.length = m.lines_.length ∧
      (∀ j, j ≠ dex_pc → m1.lines_[j]? = m.lines_[j]?) ∧
      (∀ j r, j ≠ dex_pc → m1.GetRegCategory j r = m.GetRegCategory j r) ∧
      (∀ l, m.lines_[dex_pc]? = some (some l) →
        ∃ l1, m1.lines_[dex_pc]? = some (some l1) ∧ l1.length = l.length ∧
          (∀ r, r ≠ reg_idx → l1[r]? = l[r]?) ∧
          ∀ r, r ≠ reg_idx → m1.GetRegCategory dex_pc r = m.GetRegCategory dex_pc r) := by
  obtain ⟨m1, h1⟩ := SetRegCategory_returns kRegUnknown insns_size regs_size m
    (reachable_wellShaped kRegUnknown insns_size regs_size m hm) dex_pc reg_idx cat hpc hreg
  obtain ⟨hsize, hlen, hother, slot, hslot, _, hline⟩ :=
    SetRegCategory_lines kRegUnknown m m1 dex_pc reg_idx cat h1
  refine ⟨m1, h1, hsize, hlen, hother, ?_, ?_⟩
  · intro j r hj
    simp only [InferredRegCategoryMap.GetRegCategory, hother j hj]
  · intro l hl
    rw [hslot] at hl
    simp only [Option.some.injEq] at hl
    subst hl
    simp only [Option.getD_some] at hline
    have hreg_other : ∀ r, r ≠ reg_idx → (l.set reg_idx (toByte cat))[r]? = l[r]? :=
      fun r hr => List.getElem?_set_ne (Ne.symm hr)
    refine ⟨_, hline, by simp, hreg_other, ?_⟩
    intro r hr
    simp only [InferredRegCategoryMap.GetRegCategory, hline, hslot, hreg_other r hr]

/-- Witness of C9: line 1 is allocated, and register 1 of that line is set to category 2. -/
theorem SetRegCategory_frame_witness :
    Reachable 0 3 2 ⟨2, [none, some [4, 0], none]⟩ ∧ 1 < 3 ∧ 1 < 2 ∧
    ∃ m1, InferredRegCategoryMap.SetRegCategory 0 ⟨2, [none, some [4, 0], none]⟩ 1 1 2
        = .ok m1 ∧
      m1.registers_size_ = 2 ∧
      m1.lines_.length = [none, some [4, 0], none].length ∧
      (∀ j, j ≠ 1 → m1.lines_[j]? = [none, some [4, 0], none][j]?) ∧
      (∀ j r, j ≠ 1 → m1.GetRegCategory j r
        = InferredRegCategoryMap.GetRegCategory ⟨2, [none, some [4, 0], none]⟩ j r) ∧
      (∀ l, [none, some [4, 0], none][1]? = some (some l) →
        ∃ l1, m1.lines_[1]? = some (some l1) ∧ l1.length = l.length ∧
          (∀ r, r ≠ 1 → l1[r]? = l[r]?) ∧
          ∀ r, r ≠ 1 → m1.GetRegCategory 1 r
            = InferredRegCategoryMap.GetRegCategory ⟨2, [none, some [4, 0], none]⟩ 1 r) :=
  ⟨⟨[⟨1, 0, 4⟩], by decide, by decide⟩, by decide, by decide,
    SetRegCategory_frame 0 3 2 ⟨2, [none, some [4, 0], none]⟩
      ⟨[⟨1, 0, 4⟩], by decide, by decide⟩ 1 1 2 (by decide) (by decide)⟩

/-- C10: on a reachable map whose line `dex_pc` is unallocated, an in-range
`SetRegCategory` returns and leaves a line `dex_pc` of exactly `registers_size_` entries
(that is `regs_size`), in which `GetRegCategory` returns `kRegUnknown`, an enumerator
whose value fits in a byte, for every `r < regs_size` other than `reg_idx`. -/
theorem new_line_default (kRegUnknown : RegCategory) (insns_size regs_size : Nat)
    (m : InferredRegCategoryMap) (hm : Reachable kRegUnknown insns_size regs_size m)
    (dex_pc reg_idx : Nat) (cat : RegCategory) (hpc : dex_pc < insns_size)
    (hreg : reg_idx < regs_size) (hunknown : kRegUnknown < 256)
    (hline : m.lines_[dex_pc]? = some none) :
    ∃ m1 l1, m.SetRegCategory kRegUnknown dex_pc reg_idx cat = .ok m1 ∧
      m1.lines_[dex_pc]? = some (some l1) ∧
      l1.length = m1.registers_size_ ∧
      l1.length = regs_size ∧
      ∀ r, r < regs_size → r ≠ reg_idx → m1.GetRegCategory dex_pc r = .ok kRegUnknown := by
  have hshape := reachable_wellShaped kRegUnknown insns_size regs_size m hm
  obtain ⟨m1, h1⟩ := SetRegCategory_returns kRegUnknown insns_size regs_size m hshape
    dex_pc reg_idx cat hpc hreg
  obtain ⟨hsize, _, _, slot, hslot, _, hnew⟩ :=
    SetRegCategory_lines kRegUnknown m m1 dex_pc reg_idx cat h1
  rw [hline] at hslot
  simp only [Option.some.injEq] at hslot
  subst hslot
  simp only [Option.getD_none] at hnew
  refine ⟨m1, _, h1, hnew, by simp [hsize], by simp [hshape.1], ?_⟩
  intro r hr hne
  refine (GetRegCategory_eq_ok m1 dex_pc r kRegUnknown).2 ⟨_, hnew, ?_⟩
  rw [List.getElem?_set_ne (Ne.symm hne), List.getElem?_replicate, hshape.1, if_pos hr,
    toByte_of_lt kRegUnknown hunknown]

/-- Witness of C10: `kRegUnknown` is 0, line 2 is unallocated, and register 0 of that line
is set to category 3. -/
theorem new_line_default_witness :
    Reachable 0 3 2 ⟨2, [none, some [4, 0], none]⟩ ∧ 2 < 3 ∧ 0 < 2 ∧ 0 < 256 ∧
    [none, some [4, 0], none][2]? = some (none : Option RegCategoryLine) ∧
    ∃ m1 l1, InferredRegCategoryMap.SetRegCategory 0 ⟨2, [none, some [4, 0], none]⟩ 2 0 3
        = .ok m1 ∧
      m1.lines_[2]? = some (some l1) ∧
      l1.length = m1.registers_size_ ∧
      l1.length = 2 ∧
      ∀ r, r < 2 → r ≠ 0 → m1.GetRegCategory 2 r = .ok 0 :=
  ⟨⟨[⟨1, 0, 4⟩], by decide, by decide⟩, by decide, by decide, by decide, by decide,
    new_line_default 0 3 2 ⟨2, [none, some [4, 0], none]⟩
      ⟨[⟨1, 0, 4⟩], by decide, by decide⟩ 2 0 3 (by decide) (by decide) (by decide)
      (by decide)⟩

/-- The loop of `operator==` returns true exactly when, at each index it visits, both
lines are unallocated or both are allocated and equal. -/
theorem operator_eq_loop_iff (lhs rhs : List (Option RegCategoryLine)) (remaining i : Nat) :
    InferredRegCategoryMap.operator_eq_loop lhs rhs remaining i = true ↔
      ∀ j, i ≤ j → j < i + remaining →
        (lhs[j]? = some none ∧ rhs[j]? = some none) ∨
        (∃ la lb, lhs[j]? = some (some la) ∧ rhs[j]? = some (some lb) ∧ la = lb) := by
  induction remaining generalizing i with
  | zero =>
    simp only [InferredRegCategoryMap.operator_eq_loop, true_iff]
    intro j h1 h2
    omega
  | succ n ih =>
    have hstep : ∀ (P : Nat → Prop), (∀ j, i ≤ j → j < i + (n + 1) → P j) ↔
        (P i ∧ ∀ j, i + 1 ≤ j → j < i + 1 + n → P j) := by
      intro P
      constructor
      · intro h
        exact ⟨h i (Nat.le_refl i) (by omega), fun j h1 h2 => h j (by omega) (by omega)⟩
      · rintro ⟨h0, h⟩ j h1 h2
        rcases Nat.eq_or_lt_of_le h1 with heq | hlt
        · subst heq
          exact h0
        · exact h j hlt (by omega)
    rw [InferredRegCategoryMap.operator_eq_loop, hstep, ← ih (i + 1)]
    cases hl : lhs[i]? with
    | none => simp
    | some sl =>
      cases hr : rhs[i]? with
      | none => cases sl <;> simp
      | some sr =>
        cases sl with
        | none => cases sr <;> simp
        | some a =>
          cases sr with
          | none => simp
          | some b =>
            by_cases hab : a = b
            · simp [hab]
            · simp [hab]

theorem operator_eq_iff_structurallyEqual (a b : InferredRegCategoryMap) :
    a.operator_eq b = true ↔ StructurallyEqual a b := by
  unfold InferredRegCategoryMap.operator_eq StructurallyEqual
  by_cases h1 : a.registers_size_ = b.registers_size_
  · by_cases h2 : a.lines_.length = b.lines_.length
    · simp only [h1, h2, ne_eq, not_true_eq_false, if_false, true_and]
      rw [operator_eq_loop_iff]
      simp only [Nat.zero_le, Nat.zero_add, true_implies, h2]
    · simp [h1, h2]
  · simp [h1]

theorem structurallyEqual_iff_eq (a b : InferredRegCategoryMap) :
    StructurallyEqual a b ↔ a = b := by
  constructor
  · rintro ⟨h1, h2, h3⟩
    obtain ⟨ra, la⟩ := a
    obtain ⟨rb, lb⟩ := b
    simp only at h1 h2 h3
    subst h1
    congr 1
    apply List.ext_getElem?
    intro n
    by_cases hn : n < la.length
    · rcases h3 n hn with ⟨ha, hb⟩ | ⟨x, y, ha, hb, hxy⟩
      · rw [ha, hb]
      · rw [ha, hb, hxy]
    · rw [List.getElem?_eq_none (Nat.le_of_not_lt hn),
        List.getElem?_eq_none (by omega)]
  · rintro rfl
    refine ⟨rfl, rfl, ?_⟩
    intro i hi
    have hsome := List.getElem?_eq_getElem hi
    cases hslot : a.lines_[i] with
    | none =>
      rw [hslot] at hsome
      exact Or.inl ⟨hsome, hsome⟩
    | some l =>
      rw [hslot] at hsome
      exact Or.inr ⟨l, l, hsome, hsome, rfl⟩

theorem operator_eq_iff_eq (a b : InferredRegCategoryMap) :
    a.operator_eq b = true ↔ a = b := by
  rw [operator_eq_iff_structurallyEqual, structurallyEqual_iff_eq]

/-- C7: `operator==` returns true exactly when the two maps have equal `registers_size_`,
the same number of lines, and at every index both lines unallocated or both allocated with
the same sequence of categories; and there is a reachable map with an unallocated line at
an in-range `dex_pc` on which `SetRegCategory(dex_pc, reg_idx, kRegUnknown)` leaves a map
that `operator==` distinguishes from it, in either order, although every register of the
new line reads `kRegUnknown` (an enumerator whose value fits in a byte). -/
theorem operator_eq_reference (kRegUnknown : RegCategory) (hunknown : kRegUnknown < 256)
    (a b : InferredRegCategoryMap) :
    (a.operator_eq b = true ↔ StructurallyEqual a b) ∧
    ∃ insns_size regs_size m dex_pc reg_idx m1,
      Reachable kRegUnknown insns_size regs_size m ∧
      dex_pc < insns_size ∧ reg_idx < regs_size ∧
      m.lines_[dex_pc]? = some none ∧
      m.SetRegCategory kRegUnknown dex_pc reg_idx kRegUnknown = .ok m1 ∧
      m1.operator_eq m = false ∧ m.operator_eq m1 = false ∧
      ∀ r, r < regs_size → m1.GetRegCategory dex_pc r = .ok kRegUnknown := by
  refine ⟨operator_eq_iff_structurallyEqual a b, 1, 2,
    InferredRegCategoryMap.InferredRegCategoryMap 1 2, 0, 0,
    ⟨2, [some [toByte kRegUnknown, toByte kRegUnknown]]⟩,
    ⟨[], by simp [InRange], rfl⟩, by decide, by decide, rfl, rfl, ?_, ?_, ?_⟩
  · rw [Bool.eq_false_iff, Ne, operator_eq_iff_eq]
    simp [InferredRegCategoryMap.InferredRegCategoryMap]
  · rw [Bool.eq_false_iff, Ne, operator_eq_iff_eq]
    simp [InferredRegCategoryMap.InferredRegCategoryMap]
  · intro r hr
    rw [toByte_of_lt kRegUnknown hunknown]
    have hcases : r = 0 ∨ r = 1 := by omega
    rcases hcases with rfl | rfl <;> rfl

/-- Witness of C7: `kRegUnknown` is 0; the two maps differ in one category. -/
theorem operator_eq_reference_witness :
    (0 : Nat) < 256 ∧
    ((InferredRegCategoryMap.operator_eq ⟨2, [none, some [4, 0]]⟩ ⟨2, [none, some [4, 1]]⟩
        = true ↔
      StructurallyEqual ⟨2, [none, some [4, 0]]⟩ ⟨2, [none, some [4, 1]]⟩) ∧
    ∃ insns_size regs_size m dex_pc reg_idx m1,
      Reachable 0 insns_size regs_size m ∧
      dex_pc < insns_size ∧ reg_idx < regs_size ∧
      m.lines_[dex_pc]? = some none ∧
      m.SetRegCategory 0 dex_pc reg_idx 0 = .ok m1 ∧
      m1.operator_eq m = false ∧ m.operator_eq m1 = false ∧
      ∀ r, r < regs_size → m1.GetRegCategory dex_pc r = .ok 0) :=
  ⟨by decide,
    operator_eq_reference 0 (by decide) ⟨2, [none, some [4, 0]]⟩ ⟨2, [none, some [4, 1]]⟩⟩

/-- C8: `operator==` is reflexive, symmetric and transitive, and `operator!=` returns the
negation of what `operator==` returns. -/
theorem operator_eq_equivalence (a b c : InferredRegCategoryMap) :
    a.operator_eq a = true ∧
    (a.operator_eq b = true → b.operator_eq a = true) ∧
    (a.operator_eq b = true → b.operator_eq c = true → a.operator_eq c = true) ∧
    a.operator_ne b = !(a.operator_eq b) := by
  refine ⟨(operator_eq_iff_eq a a).2 rfl, ?_, ?_, rfl⟩
  · intro h
    exact (operator_eq_iff_eq b a).2 ((operator_eq_iff_eq a b).1 h).symm
  · intro h1 h2
    exact (operator_eq_iff_eq a c).2
      (((operator_eq_iff_eq a b).1 h1).trans ((operator_eq_iff_eq b c).1 h2))

/-- Witness of C8: three maps with the same lines, on which both premises hold. -/
theorem operator_eq_equivalence_witness :
    InferredRegCategoryMap.operator_eq ⟨2, [none, some [4, 0]]⟩ ⟨2, [none, some [4, 0]]⟩
      = true ∧
    (InferredRegCategoryMap.operator_eq ⟨2, [none, some [4, 0]]⟩ ⟨2, [none, some [4, 0]]⟩
        = true ∧
      (InferredRegCategoryMap.operator_eq ⟨2, [none, some [4, 0]]⟩ ⟨2, [none, some [4, 0]]⟩
          = true →
        InferredRegCategoryMap.operator_eq ⟨2, [none, some [4, 0]]⟩ ⟨2, [none, some [4, 0]]⟩
          = true) ∧
      (InferredRegCategoryMap.operator_eq ⟨2, [none, some [4, 0]]⟩ ⟨2, [none, some [4, 0]]⟩
          = true →
        InferredRegCategoryMap.operator_eq ⟨2, [none, some [4, 0]]⟩ ⟨2, [none, some [4, 0]]⟩
          = true →
        InferredRegCategoryMap.operator_eq ⟨2, [none, some [4, 0]]⟩ ⟨2, [none, some [4, 0]]⟩
          = true) ∧
      InferredRegCategoryMap.operator_ne ⟨2, [none, some [4, 0]]⟩ ⟨2, [none, some [4, 0]]⟩
        = !(InferredRegCategoryMap.operator_eq ⟨2, [none, some [4, 0]]⟩
          ⟨2, [none, some [4, 0]]⟩)) :=
  ⟨by decide,
    operator_eq_equivalence ⟨2, [none, some [4, 0]]⟩ ⟨2, [none, some [4, 0]]⟩
      ⟨2, [none, some [4, 0]]⟩⟩

/-- Two maps with the same `registers_size_` and the same entry of `lines_` at every
index are equal. -/
theorem map_ext_lines (a b : InferredRegCategoryMap)
    (hsize : a.registers_size_ = b.registers_size_)
    (hlines : ∀ j : Nat, a.lines_[j]? = b.lines_[j]?) : a = b := by
  obtain ⟨ra, la⟩ := a
  obtain ⟨rb, lb⟩ := b
  simp only at hsize hlines
  subst hsize
  congr 1
  exact List.ext_getElem? hlines

/-- Writing the same register twice leaves what the second write alone leaves. -/
theorem SetRegCategory_twice (kRegUnknown : RegCategory)
    (m m1 m2 m3 : InferredRegCategoryMap) (dex_pc reg_idx : Nat) (a b : RegCategory)
    (h1 : m.SetRegCategory kRegUnknown dex_pc reg_idx a = .ok m1)
    (h2 : m1.SetRegCategory kRegUnknown dex_pc reg_idx b = .ok m2)
    (h3 : m.SetRegCategory kRegUnknown dex_pc reg_idx b = .ok m3) : m2 = m3 := by
  obtain ⟨hs1, _, ho1, s1, hslot1, _, hl1⟩ :=
    SetRegCategory_lines kRegUnknown m m1 dex_pc reg_idx a h1
  obtain ⟨hs2, _, ho2, s2, hslot2, _, hl2⟩ :=
    SetRegCategory_lines kRegUnknown m1 m2 dex_pc reg_idx b h2
  obtain ⟨hs3, _, ho3, s3, hslot3, _, hl3⟩ :=
    SetRegCategory_lines kRegUnknown m m3 dex_pc reg_idx b h3
  have e3 : s3 = s1 := by
    rw [hslot1] at hslot3
    exact (Option.some.inj hslot3).symm
  have e2 : s2 = some ((s1.getD (List.replicate m.registers_size_ (toByte kRegUnknown))).set
      reg_idx (toByte a)) := by
    rw [hl1] at hslot2
    exact (Option.some.inj hslot2).symm
  subst e3 e2
  refine map_ext_lines m2 m3 (by rw [hs2, hs1, hs3]) ?_
  intro j
  by_cases hj : j = dex_pc
  · subst hj
    rw [hl2, hl3, Option.getD_some, List.set_set]
  · rw [ho2 j hj, ho1 j hj, ho3 j hj]

/-- Writes to two different registers, of the same line or of different lines, leave the
same map in either order. -/
theorem SetRegCategory_comm (kRegUnknown : RegCategory)
    (m n1 n2 n3 n4 : InferredRegCategoryMap) (p1 r1 p2 r2 : Nat) (a b : RegCategory)
    (hne : p1 ≠ p2 ∨ r1 ≠ r2)
    (h1 : m.SetRegCategory kRegUnknown p1 r1 a = .ok n1)
    (h2 : n1.SetRegCategory kRegUnknown p2 r2 b = .ok n2)
    (h3 : m.SetRegCategory kRegUnknown p2 r2 b = .ok n3)
    (h4 : n3.SetRegCategory kRegUnknown p1 r1 a = .ok n4) : n2 = n4 := by
  obtain ⟨hs1, _, ho1, s1, hslot1, _, hl1⟩ := SetRegCategory_lines kRegUnknown m n1 p1 r1 a h1
  obtain ⟨hs2, _, ho2, s2, hslot2, _, hl2⟩ := SetRegCategory_lines kRegUnknown n1 n2 p2 r2 b h2
  obtain ⟨hs3, _, ho3, s3, hslot3, _, hl3⟩ := SetRegCategory_lines kRegUnknown m n3 p2 r2 b h3
  obtain ⟨hs4, _, ho4, s4, hslot4, _, hl4⟩ := SetRegCategory_lines kRegUnknown n3 n4 p1 r1 a h4
  refine map_ext_lines n2 n4 (by rw [hs2, hs1, hs4, hs3]) ?_
  intro j
  by_cases hp : p1 = p2
  · subst hp
    have hr : r1 ≠ r2 := by
      rcases hne with h | h
      · exact absurd rfl h
      · exact h
    have e3 : s3 = s1 := by
      rw [hslot1] at hslot3
      exact (Option.some.inj hslot3).symm
    have e2 : s2 = some ((s1.getD (List.replicate m.registers_size_
        (toByte kRegUnknown))).set r1 (toByte a)) := by
      rw [hl1] at hslot2
      exact (Option.some.inj hslot2).symm
    subst e3
    have e4 : s4 = some ((s3.getD (List.replicate m.registers_size_
        (toByte kRegUnknown))).set r2 (toByte b)) := by
      rw [hl3] at hslot4
      exact (Option.some.inj hslot4).symm
    subst e2 e4
    by_cases hj : j = p1
    · subst hj
      rw [hl2, hl4, Option.getD_some, Option.getD_some, List.set_comm _ _ _ hr]
    · rw [ho2 j hj, ho1 j hj, ho4 j hj, ho3 j hj]
  · have e2 : s2 = s3 := by
      rw [ho1 p2 (Ne.symm hp), hslot3] at hslot2
      exact (Option.some.inj hslot2).symm
    have e4 : s4 = s1 := by
      rw [ho3 p1 hp, hslot1] at hslot4
      exact (Option.some.inj hslot4).symm
    subst e2 e4
    by_cases hj1 : j = p1
    · subst hj1
      rw [ho2 j hp, hl1, hl4, hs3]
    · by_cases hj2 : j = p2
      · subst hj2
        rw [hl2, ho4 j hj1, hl3, hs1]
      · rw [ho2 j hj2, ho1 j hj1, ho4 j hj1, ho3 j hj2]

/-- A run of calls followed by one more call is the run of the longer sequence. -/
theorem applyCalls_append_single (kRegUnknown : RegCategory) (calls : List SetCall)
    (m0 m m1 : InferredRegCategoryMap) (c : SetCall)
    (h : applyCalls kRegUnknown m0 calls = .ok m)
    (h1 : m.SetRegCategory kRegUnknown c.dex_pc c.reg_idx c.cat = .ok m1) :
    applyCalls kRegUnknown m0 (calls ++ [c]) = .ok m1 := by
  induction calls generalizing m0 with
  | nil =>
    simp only [applyCalls, Outcome.ok.injEq] at h
    subst h
    simp only [List.nil_append, applyCalls, h1]
  | cons d ds ih =>
    simp only [applyCalls] at h
    split at h
    · rename_i m2 h2
      simp only [List.cons_append, applyCalls, h2]
      exact ih m2 h
    · cases h
    · cases h

/-- The map left by an in-range call on a reachable map is reachable. -/
theorem applyCalls_snoc_reachable (kRegUnknown : RegCategory) (insns_size regs_size : Nat)
    (m m1 : InferredRegCategoryMap) (hm : Reachable kRegUnknown insns_size regs_size m)
    (dex_pc reg_idx : Nat) (cat : RegCategory) (hpc : dex_pc < insns_size)
    (hreg : reg_idx < regs_size)
    (h1 : m.SetRegCategory kRegUnknown dex_pc reg_idx cat = .ok m1) :
    Reachable kRegUnknown insns_size regs_size m1 := by
  obtain ⟨calls, hr, hc⟩ := hm
  refine ⟨calls ++ [⟨dex_pc, reg_idx, cat⟩], ?_, ?_⟩
  · intro c hcmem
    rcases List.mem_append.1 hcmem with h | h
    · exact hr c h
    · rw [List.mem_singleton.1 h]
      exact ⟨hpc, hreg⟩
  · exact applyCalls_append_single kRegUnknown calls _ m m1 ⟨dex_pc, reg_idx, cat⟩ hc h1

/-- C11: on a reachable map and for an in-range `(p1, r1)`, all the calls below return;
`SetRegCategory(p1, r1, a)` followed by `SetRegCategory(p1, r1, b)` leaves a map that
`operator==` equates with the one `SetRegCategory(p1, r1, b)` alone leaves; repeating the
same write leaves a map `==` to the one the first write leaves; and for every in-range
`(p2, r2)` that differs from `(p1, r1)`, `SetRegCategory(p1, r1, a)` then
`SetRegCategory(p2, r2, b)` leaves a map `==` to the one the two calls leave in the
opposite order. -/
theorem writes_last_wins_and_commute (kRegUnknown : RegCategory) (insns_size regs_size : Nat)
    (m : InferredRegCategoryMap) (hm : Reachable kRegUnknown insns_size regs_size m)
    (p1 r1 : Nat) (a b : RegCategory) (hp1 : p1 < insns_size) (hr1 : r1 < regs_size) :
    (∃ m1 m2 m3, m.SetRegCategory kRegUnknown p1 r1 a = .ok m1 ∧
      m1.SetRegCategory kRegUnknown p1 r1 b = .ok m2 ∧
      m.SetRegCategory kRegUnknown p1 r1 b = .ok m3 ∧
      m2.operator_eq m3 = true) ∧
    (∃ m1 m2, m.SetRegCategory kRegUnknown p1 r1 a = .ok m1 ∧
      m1.SetRegCategory kRegUnknown p1 r1 a = .ok m2 ∧
      m2.operator_eq m1 = true) ∧
    (∀ p2 r2 : Nat, p2 < insns_size → r2 < regs_size → (p1, r1) ≠ (p2, r2) →
      ∃ n1 n2 n3 n4, m.SetRegCategory kRegUnknown p1 r1 a = .ok n1 ∧
        n1.SetRegCategory kRegUnknown p2 r2 b = .ok n2 ∧
        m.SetRegCategory kRegUnknown p2 r2 b = .ok n3 ∧
        n3.SetRegCategory kRegUnknown p1 r1 a = .ok n4 ∧
        n2.operator_eq n4 = true) := by
  have hshape := reachable_wellShaped kRegUnknown insns_size regs_size m hm
  obtain ⟨m1, h1⟩ := SetRegCategory_returns kRegUnknown insns_size regs_size m hshape
    p1 r1 a hp1 hr1
  have hshape1 := SetRegCategory_wellShaped kRegUnknown insns_size regs_size m m1 hshape
    p1 r1 a h1
  obtain ⟨m2, h2⟩ := SetRegCategory_returns kRegUnknown insns_size regs_size m1 hshape1
    p1 r1 b hp1 hr1
  obtain ⟨m3, h3⟩ := SetRegCategory_returns kRegUnknown insns_size regs_size m hshape
    p1 r1 b hp1 hr1
  obtain ⟨m2a, h2a⟩ := SetRegCategory_returns kRegUnknown insns_size regs_size m1 hshape1
    p1 r1 a hp1 hr1
  refine ⟨⟨m1, m2, m3, h1, h2, h3, ?_⟩, ⟨m1, m2a, h1, h2a, ?_⟩, ?_⟩
  · exact (operator_eq_iff_eq m2 m3).2
      (SetRegCategory_twice kRegUnknown m m1 m2 m3 p1 r1 a b h1 h2 h3)
  · exact (operator_eq_iff_eq m2a m1).2
      (SetRegCategory_twice kRegUnknown m m1 m2a m1 p1 r1 a a h1 h2a h1)
  · intro p2 r2 hp2 hr2 hne
    obtain ⟨n2, g2⟩ := SetRegCategory_returns kRegUnknown insns_size regs_size m1 hshape1
      p2 r2 b hp2 hr2
    obtain ⟨n3, g3⟩ := SetRegCategory_returns kRegUnknown insns_size regs_size m hshape
      p2 r2 b hp2 hr2
    have hshape3 := SetRegCategory_wellShaped kRegUnknown insns_size regs_size m n3 hshape
      p2 r2 b g3
    obtain ⟨n4, g4⟩ := SetRegCategory_returns kRegUnknown insns_size regs_size n3 hshape3
      p1 r1 a hp1 hr1
    have hne2 : p1 ≠ p2 ∨ r1 ≠ r2 := by
      by_contra hcon
      simp only [not_or, not_not] at hcon
      exact hne (by rw [hcon.1, hcon.2])
    exact ⟨m1, n2, n3, n4, h1, g2, g3, g4, (operator_eq_iff_eq n2 n4).2
      (SetRegCategory_comm kRegUnknown m m1 n2 n3 n4 p1 r1 p2 r2 a b hne2 h1 g2 g3 g4)⟩

/-- Witness of C11: line 1 is allocated and the others are not; the writes to `(p1, r1)`
are the categories 2 and 3 to register 1 of line 1. -/
theorem writes_last_wins_and_commute_witness :
    Reachable 0 3 2 ⟨2, [none, some [4, 0], none]⟩ ∧ 1 < 3 ∧ 1 < 2 ∧
    ((∃ m1 m2 m3,
        InferredRegCategoryMap.SetRegCategory 0 ⟨2, [none, some [4, 0], none]⟩ 1 1 2
          = .ok m1 ∧
        m1.SetRegCategory 0 1 1 3 = .ok m2 ∧
        InferredRegCategoryMap.SetRegCategory 0 ⟨2, [none, some [4, 0], none]⟩ 1 1 3
          = .ok m3 ∧
        m2.operator_eq m3 = true) ∧
      (∃ m1 m2,
        InferredRegCategoryMap.SetRegCategory 0 ⟨2, [none, some [4, 0], none]⟩ 1 1 2
          = .ok m1 ∧
        m1.SetRegCategory 0 1 1 2 = .ok m2 ∧
        m2.operator_eq m1 = true) ∧
      (∀ p2 r2 : Nat, p2 < 3 → r2 < 2 → (1, 1) ≠ (p2, r2) →
        ∃ n1 n2 n3 n4,
          InferredRegCategoryMap.SetRegCategory 0 ⟨2, [none, some [4, 0], none]⟩ 1 1 2
            = .ok n1 ∧
          n1.SetRegCategory 0 p2 r2 3 = .ok n2 ∧
          InferredRegCategoryMap.SetRegCategory 0 ⟨2, [none, some [4, 0], none]⟩ p2 r2 3
            = .ok n3 ∧
          n3.SetRegCategory 0 1 1 2 = .ok n4 ∧
          n2.operator_eq n4 = true)) :=
  ⟨⟨[⟨1, 0, 4⟩], by decide, by decide⟩, by decide, by decide,
    writes_last_wins_and_commute 0 3 2 ⟨2, [none, some [4, 0], none]⟩
      ⟨[⟨1, 0, 4⟩], by decide, by decide⟩ 1 1 2 3 (by decide) (by decide)⟩

/-- C12: every map reachable from the constructor with `(insns_size, regs_size)` by
in-range `SetRegCategory` calls has exactly `insns_size` lines, `registers_size_` equal to
`regs_size`, and `regs_size` entries in every allocated line; consequently, for every
`dex_pc < insns_size` and `reg_idx < regs_size`, the index `dex_pc` is inside `lines_`, the
index `reg_idx` is inside every allocated line, `SetRegCategory` returns without indexing
out of range (and leaves a reachable map), and `GetRegCategory` does not index out of
range and returns a value when its `CHECK` passes. -/
theorem shape_invariant (kRegUnknown : RegCategory) (insns_size regs_size : Nat)
    (m : InferredRegCategoryMap) (hm : Reachable kRegUnknown insns_size regs_size m) :
    m.lines_.length = insns_size ∧
    m.registers_size_ = regs_size ∧
    (∀ (i : Nat) (l : RegCategoryLine), m.lines_[i]? = some (some l) → l.length = regs_size) ∧
    ∀ (dex_pc reg_idx : Nat) (cat : RegCategory), dex_pc < insns_size → reg_idx < regs_size →
      dex_pc < m.lines_.length ∧
      (∀ (l : RegCategoryLine), m.lines_[dex_pc]? = some (some l) → reg_idx < l.length) ∧
      (∃ m1, m.SetRegCategory kRegUnknown dex_pc reg_idx cat = .ok m1 ∧
        Reachable kRegUnknown insns_size regs_size m1) ∧
      m.SetRegCategory kRegUnknown dex_pc reg_idx cat ≠ .outOfRange ∧
      m.GetRegCategory dex_pc reg_idx ≠ .outOfRange ∧
      (m.GetRegCategory dex_pc reg_idx ≠ .checkFailed →
        ∃ v, m.GetRegCategory dex_pc reg_idx = .ok v) := by
  have hshape := reachable_wellShaped kRegUnknown insns_size regs_size m hm
  refine ⟨hshape.2.1, hshape.1, hshape.2.2, ?_⟩
  intro dex_pc reg_idx cat hpc hreg
  obtain ⟨m1, h1⟩ := SetRegCategory_returns kRegUnknown insns_size regs_size m hshape
    dex_pc reg_idx cat hpc hreg
  have hget : m.GetRegCategory dex_pc reg_idx ≠ .checkFailed →
      ∃ v, m.GetRegCategory dex_pc reg_idx = .ok v := by
    intro hcheck
    rw [GetRegCategory_returns_iff insns_size regs_size m hshape dex_pc reg_idx hpc hreg]
    intro hnone
    exact hcheck ((GetRegCategory_eq_checkFailed m dex_pc reg_idx).2 hnone)
  refine ⟨by rw [hshape.2.1]; exact hpc, ?_, ⟨m1, h1, ?_⟩, ?_, ?_, hget⟩
  · intro l hl
    rw [hshape.2.2 dex_pc l hl]
    exact hreg
  · exact applyCalls_snoc_reachable kRegUnknown insns_size regs_size m m1 hm
      dex_pc reg_idx cat hpc hreg h1
  · rw [h1]
    intro h
    cases h
  · intro hout
    by_cases hcheck : m.GetRegCategory dex_pc reg_idx = .checkFailed
    · rw [hcheck] at hout
      cases hout
    · obtain ⟨v, hv⟩ := hget hcheck
      rw [hv] at hout
      cases hout

/-- Witness of C12: the map left by one call on the fresh map of three instructions and
two registers. -/
theorem shape_invariant_witness :
    Reachable 0 3 2 ⟨2, [none, some [4, 0], none]⟩ ∧
    (([none, some [4, 0], none] : List (Option RegCategoryLine)).length = 3 ∧
    (2 : Nat) = 2 ∧
    (∀ (i : Nat) (l : RegCategoryLine),
      [none, some [4, 0], none][i]? = some (some l) → l.length = 2) ∧
    ∀ (dex_pc reg_idx : Nat) (cat : RegCategory), dex_pc < 3 → reg_idx < 2 →
      dex_pc < ([none, some [4, 0], none] : List (Option RegCategoryLine)).length ∧
      (∀ (l : RegCategoryLine),
        [none, some [4, 0], none][dex_pc]? = some (some l) → reg_idx < l.length) ∧
      (∃ m1, InferredRegCategoryMap.SetRegCategory 0 ⟨2, [none, some [4, 0], none]⟩
          dex_pc reg_idx cat = .ok m1 ∧
        Reachable 0 3 2 m1) ∧
      InferredRegCategoryMap.SetRegCategory 0 ⟨2, [none, some [4, 0], none]⟩
        dex_pc reg_idx cat ≠ .outOfRange ∧
      InferredRegCategoryMap.GetRegCategory ⟨2, [none, some [4, 0], none]⟩ dex_pc reg_idx
        ≠ .outOfRange ∧
      (InferredRegCategoryMap.GetRegCategory ⟨2, [none, some [4, 0], none]⟩ dex_pc reg_idx
          ≠ .checkFailed →
        ∃ v, InferredRegCategoryMap.GetRegCategory ⟨2, [none, some [4, 0], none]⟩
          dex_pc reg_idx = .ok v)) :=
  ⟨⟨[⟨1, 0, 4⟩], by decide, by decide⟩,
    shape_invariant 0 3 2 ⟨2, [none, some [4, 0], none]⟩
      ⟨[⟨1, 0, 4⟩], by decide, by decide⟩⟩

end art.compiler_llvm
